import Mathlib

/-!
Verification development for the GreyM PE protector core.

The definitions below are a shallow embedding of the two source files
`src/GreyM/src/protector.cpp` and
`src/GreyM/src/disassembler/pe_disassembly_engine.cpp` (x86 / 32-bit build
configuration: `_WIN64` not defined, so `uintptr_t` is 4 bytes and all
pointer-sized arithmetic wraps modulo 2^32).

Byte buffers are `List Nat` with every entry < 256 where written by the
model; machine-integer arithmetic is `Nat` with explicit `% 2^32`.
External collaborators that the spec declares out of scope (the
virtualizer, the shellcode container, the capstone decoder, the RNG) are
passed in as function-valued parameters; everything that the two source
files themselves compute is written out in full.
-/

/-- The 32-bit modulus used throughout: the build is x86, so `uintptr_t`
and `uint32_t` arithmetic both wrap at 2^32. -/
def M32 : Nat := 4294967296

/-- Wrapping 32-bit subtraction `a - b`, as performed by the C++
`uintptr_t`/`uint32_t` subtraction in the x86 build. -/
def sub32 (a b : Nat) : Nat := (a + (M32 - b % M32)) % M32

/-- Read one byte of a buffer (out-of-range reads yield 0; the theorems
always carry bounds that keep reads in range). -/
def getByte (l : List Nat) (i : Nat) : Nat := l.getD i 0

/-- Write one byte of a buffer (`std::vector` element assignment). -/
def setByte (l : List Nat) (i v : Nat) : List Nat := l.set i v

/-- Read a 32-bit little-endian value at byte offset `i`, as the C++
`*reinterpret_cast<const uint32_t*>(p + i)` does on a little-endian
machine. -/
def le32Read (l : List Nat) (i : Nat) : Nat :=
  getByte l i + 256 * getByte l (i + 1) + 65536 * getByte l (i + 2) +
    16777216 * getByte l (i + 3)

/-- Write a 32-bit little-endian value at byte offset `i`, as the C++
`*reinterpret_cast<uint32_t*>(p + i) = v` does. -/
def le32Write (l : List Nat) (i v : Nat) : List Nat :=
  ((((l.set i (v % 256)).set (i + 1) (v / 256 % 256)).set
      (i + 2) (v / 65536 % 256)).set (i + 3) (v / 16777216 % 256))

/-- The four bytes of a 32-bit value in little-endian order
(serialization of a `uint32_t` into a byte vector). -/
def le32Bytes (v : Nat) : List Nat :=
  [v % 256, v / 256 % 256, v / 65536 % 256, v / 16777216 % 256]

/-- Index of the first element not less than `x` in `l`: the result of
`std::lower_bound(begin, end, x) - begin`. The C++ performs a binary
search, which on the sorted vectors it is applied to returns exactly the
first position whose element is `≥ x`; the model expresses that position
directly. -/
def lowerBound (l : List Nat) (x : Nat) : Nat :=
  (l.takeWhile (fun y => decide (y < x))).length

/-- First loop of `GetRelocationsWithinInstruction`
(protector.cpp:74-87): for `i = 0 .. n-1` binary-search the relocation
vector for the exact value `a + i`; on the first hit remember the
iterator (here: its index) and break. -/
def relocSearchLoop (l : List Nat) (a : Nat) : Nat → Nat → Option Nat
  | _, 0 => none
  | i, n + 1 =>
    let j := lowerBound l (a + i)
    if h : j < l.length then
      if l[j] = a + i then some j
      else relocSearchLoop l a (i + 1) n
    else relocSearchLoop l a (i + 1) n

/-- `GetRelocationsWithinInstruction` (protector.cpp:67-111): find the
first relocation RVA equal to some byte address of the instruction
`[a, a + s)`, then keep walking the sorted vector from the found iterator
while the RVAs stay inside the instruction. -/
def getRelocationsWithinInstruction (a s : Nat) (l : List Nat) : List Nat :=
  match relocSearchLoop l a 0 s with
  | none => []
  | some j =>
    l.getD j 0 ::
      (l.drop (j + 1)).takeWhile (fun r => decide (a ≤ r) && decide (r < a + s))

/-- The 64-bit modulus, for the `sizeof(uint64_t)` branch of the fixup
application switch. -/
def M64 : Nat := 18446744073709551616

/-- Read a 64-bit little-endian value at byte offset `i`. -/
def le64Read (l : List Nat) (i : Nat) : Nat :=
  le32Read l i + M32 * le32Read l (i + 4)

/-- Write a 64-bit little-endian value at byte offset `i`. -/
def le64Write (l : List Nat) (i v : Nat) : List Nat :=
  le32Write (le32Write l i (v % M32)) (i + 4) (v / M32 % M32)

/-- `FixupOperation` (protector.cpp:21-25). -/
inductive FixupOperation where
  | AddVmLoaderSectionVirtualAddress
  | SubtractVmLoaderSectionVirtualAddress
  | AddVirtualizedCodeSectionVirtualAddress
deriving DecidableEq

/-- `OffsetRelativeTo` (protector.cpp:27-33). -/
inductive OffsetRelativeTo where
  | VmLoaderSection
  | TextSection
  | RelocSection
  | VirtualizedCodeSection
  | Beginning
deriving DecidableEq

/-- `FixupDescriptor` (protector.cpp:35-40): origin of the offset, width
of the patched value (4 or 8 bytes) and the operation to apply. -/
structure FixupDescriptor where
  offset_type : OffsetRelativeTo
  size : Nat
  operation : FixupOperation
deriving DecidableEq

/-- `Fixup` (protector.cpp:42-45). -/
structure Fixup where
  offset : Nat
  desc : FixupDescriptor
deriving DecidableEq

/-- One arm of the `FixFinishedPe` value-update switch
(protector.cpp:814-838), 32-bit case: read the value, add or subtract the
final section virtual address, truncated to 32 bits. -/
def applyFixup32 (vmVA vcVA value : Nat) : FixupOperation → Nat
  | FixupOperation.AddVmLoaderSectionVirtualAddress => (value + vmVA) % M32
  | FixupOperation.AddVirtualizedCodeSectionVirtualAddress => (value + vcVA) % M32
  | FixupOperation.SubtractVmLoaderSectionVirtualAddress => sub32 value vmVA

/-- The 64-bit case of the same switch (protector.cpp:840-863). -/
def applyFixup64 (vmVA vcVA value : Nat) : FixupOperation → Nat
  | FixupOperation.AddVmLoaderSectionVirtualAddress => (value + vmVA) % M64
  | FixupOperation.AddVirtualizedCodeSectionVirtualAddress => (value + vcVA) % M64
  | FixupOperation.SubtractVmLoaderSectionVirtualAddress =>
      (value + (M64 - vmVA % M64)) % M64

/-- The `FixFinishedPe` fixup loop (protector.cpp:775-869) restricted to
the fixups whose origin resolves into the new text section: a
`TextSection` fixup at section offset `f.offset` reads the little-endian
value there, applies the operation with the final section virtual
addresses `vmVA` / `vcVA`, and writes it back. Fixups with other origins
write into other sections and leave the text bytes unchanged, so they are
skipped here. (Sizes other than 4 and 8 throw in the source and are never
recorded; the model leaves the buffer unchanged for them.) -/
def applyTextFixups (vmVA vcVA : Nat) (fixups : List Fixup) (text : List Nat) :
    List Nat :=
  fixups.foldl
    (fun t f =>
      match f.desc.offset_type with
      | OffsetRelativeTo.TextSection =>
        match f.desc.size with
        | 4 => le32Write t f.offset
            (applyFixup32 vmVA vcVA (le32Read t f.offset) f.desc.operation)
        | 8 => le64Write t f.offset
            (applyFixup64 vmVA vcVA (le64Read t f.offset) f.desc.operation)
        | _ => t
      | _ => t)
    text

/-- Modelled from the spec (§4.1): number of padding bytes appended by the
section builder to reach the next `align` boundary (`Section::AppendCode`
lives in `pe/section.cpp`, which is not part of the two core files). -/
def padLen (n align : Nat) : Nat :=
  if align = 0 then 0 else (align - n % align) % align

/-- Modelled from the spec (§4.1): `Section::AppendCode` writes `bytes` at
the current write offset (the current raw size), pads the raw size up to
the next multiple of the file alignment, and returns the offset at which
`bytes[0]` was written. -/
def secAppend (s bytes : List Nat) (falign : Nat) : List Nat × Nat :=
  let off := s.length
  let raw := s ++ bytes
  (raw ++ List.replicate (padLen raw.length falign) 0, off)

/-- The random overwrite of a virtualized instruction
(protector.cpp:1184-1186): every byte of `[off, off + size)` is replaced
by a fresh byte of the external RNG stream `rnd`. -/
def fillRandom (text : List Nat) (rnd : Nat → Nat) (off size : Nat) : List Nat :=
  (List.range size).foldl (fun t k => t.set (off + k) (rnd k % 256)) text

/-- The patched 32-bit jump displacement (protector.cpp:1195-1198):
`static_cast<uint32_t>(loader_shellcode_offset - instruction.address) -
kJmpInstructionSize` with `kJmpInstructionSize = 5`, in wrapping 32-bit
arithmetic. -/
def jmpDestination (loaderOff addr : Nat) : Nat :=
  (sub32 loaderOff addr + (M32 - 5)) % M32

/-- The in-place text patch of `EachInstructionCallback`
(protector.cpp:1171-1208): fill the instruction bytes with random bytes,
write the `E9` jump opcode at the first byte, then write the 32-bit
little-endian displacement at bytes 1..4. -/
def patchInstructionBytes (text : List Nat) (rnd : Nat → Nat)
    (off size loaderOff addr : Nat) : List Nat :=
  let filled := fillRandom text rnd off size
  let withJmp := filled.set off 0xE9
  le32Write withJmp (off + 1) (jmpDestination loaderOff addr)

/-- The fixup recorded for the patched jump displacement
(protector.cpp:1210-1216): offset `instruction_text_section_offset + 1`,
origin `TextSection`, operation `AddVmLoaderSectionVirtualAddress`,
size 4. -/
def jmpToVmLoaderFixup (textOff : Nat) : Fixup :=
  ⟨textOff + 1,
    ⟨OffsetRelativeTo.TextSection, 4,
      FixupOperation.AddVmLoaderSectionVirtualAddress⟩⟩

/-- The only error the per-instruction callback can raise
(protector.cpp:1063-1069): a virtualizable instruction touching eflags. -/
inductive ProtectError where
  | UnsupportedInstruction
deriving DecidableEq

/-- The slice of a decoded instruction that `EachInstructionCallback`
inspects: its RVA, its byte size, and the `detail->x86.eflags` bitmask. -/
structure PIns where
  address : Nat
  size : Nat
  eflags : Nat
deriving DecidableEq

/-- Shape of the loader shellcode returned by the external virtualizer
(`GetLoaderShellcodeForVirtualizedCode`): the raw bytes and the offsets of
the named patch sites the protector reads with `GetNamedValueOffset`. The
shellcode contents and the in-shellcode patches (`ModifyVariable`) are
external (`utils/shellcode.h`), so the bytes are opaque here. -/
structure LoaderInfo where
  bytes : List Nat
  origAddrOff : Nat
  vmCodeAddrOff : Nat
  imageBaseOff : Nat

/-- The environment of one `Protect` run, with the external collaborators
(virtualizer classification, virtualized-code builder, loader-shellcode
builder, RNG) as opaque functions and the data `Protect` gathers before
disassembly (sorted relocation RVAs, text section VA, alignments). -/
structure PCtx where
  isVirt : PIns → Bool
  vmBytes : PIns → List Nat
  loader : PIns → LoaderInfo
  rnd : Nat → Nat
  relocRvas : List Nat
  textVA : Nat
  salign : Nat
  falign : Nat

/-- The mutable state `EachInstructionCallback` and
`InvalidInstructionCallback` close over: the new text section bytes, the
two appended sections, and the `FixupContext` vectors
(protector.cpp:47-65). -/
structure PState where
  newText : List Nat
  vmLoader : List Nat
  vc : List Nat
  fixups : List Fixup
  vmRelocOffsets : List Nat
  relocRvasToRemove : List Nat
deriving DecidableEq

/-- `EachInstructionCallback` (protector.cpp:1058-1233). A virtualizable
instruction with a non-zero eflags mask throws; otherwise, when the
virtualizer produced a non-empty buffer, the callback appends the VM
bytes and the loader shellcode, records the three fixups and the
image-base relocation offset, patches the instruction in the new text
section, and queues the instruction's relocation RVAs for removal. -/
def eachInstructionCallback (ctx : PCtx) (s : PState) (ins : PIns) :
    Except ProtectError PState :=
  if ctx.isVirt ins then
    if ins.eflags ≠ 0 then Except.error ProtectError.UnsupportedInstruction
    else
      let relocs := getRelocationsWithinInstruction ins.address ins.size
        ctx.relocRvas
      if (ctx.vmBytes ins).length ≠ 0 then
        let vcApp := secAppend s.vc (ctx.vmBytes ins) ctx.falign
        let linfo := ctx.loader ins
        let vlApp := secAppend s.vmLoader linfo.bytes ctx.falign
        let loaderOff := vlApp.2
        let textOff := ins.address - ctx.textVA
        Except.ok
          { newText := patchInstructionBytes s.newText ctx.rnd textOff ins.size
              loaderOff ins.address
            vmLoader := vlApp.1
            vc := vcApp.1
            fixups := s.fixups ++
              [⟨loaderOff + linfo.origAddrOff,
                 ⟨OffsetRelativeTo.VmLoaderSection, 4,
                   FixupOperation.SubtractVmLoaderSectionVirtualAddress⟩⟩,
               ⟨loaderOff + linfo.vmCodeAddrOff,
                 ⟨OffsetRelativeTo.VmLoaderSection, 4,
                   FixupOperation.AddVirtualizedCodeSectionVirtualAddress⟩⟩,
               jmpToVmLoaderFixup textOff]
            vmRelocOffsets := s.vmRelocOffsets ++ [loaderOff + linfo.imageBaseOff]
            relocRvasToRemove := s.relocRvasToRemove ++ relocs }
      else Except.ok s
  else Except.ok s

/-- Modelled from the spec (§4.8, §5): `DisassembleFromEntrypoint` (whose
body lives in the disassembly engine header, outside the two core files)
invokes the per-instruction callback once per decoded instruction, and a
thrown error aborts the whole run. -/
def protectRun (ctx : PCtx) : List PIns → PState → Except ProtectError PState
  | [], s => Except.ok s
  | ins :: rest, s =>
    match eachInstructionCallback ctx s ins with
    | Except.error e => Except.error e
    | Except.ok s2 => protectRun ctx rest s2

/-- The output of a run: the rewritten text bytes of the final state, or
nothing when the run aborted (spec §5: partial progress is discarded and
no image is produced). -/
def protectOutput (ctx : PCtx) (insns : List PIns) (s : PState) :
    Option (List Nat) :=
  match protectRun ctx insns s with
  | Except.ok s2 => some s2.newText
  | Except.error _ => none

/-- `InvalidInstructionCallback` (protector.cpp:1237-1292): copy the
original bytes of the reported instruction back into the new text
section, recompute the relocation RVAs inside the instruction, and erase
each of them (first occurrence) from the to-remove vector. Nothing else
is undone. -/
def invalidInstructionCallback (ctx : PCtx) (origText : List Nat)
    (s : PState) (address size : Nat) : PState :=
  let textOff := address - ctx.textVA
  let restored := (List.range size).foldl
    (fun t k => t.set (textOff + k) (getByte origText (textOff + k))) s.newText
  let relocs := getRelocationsWithinInstruction address size ctx.relocRvas
  let toRemove := relocs.foldl (fun l r => l.erase r) s.relocRvasToRemove
  { s with newText := restored, relocRvasToRemove := toRemove }

/-- Concrete run environment for the rollback scenario: one relocation at
RVA 0x1002, text section VA 0x1000, a virtualizer that accepts everything
and produces a 1-byte VM buffer and an 8-byte loader shellcode. -/
def rollbackCtx : PCtx :=
  ⟨fun _ => true, fun _ => [0xAA],
   fun _ => ⟨[0x90, 0x90, 0x90, 0x90, 0x90, 0x90, 0x90, 0x90], 0, 2, 4⟩,
   fun _ => 0x41, [0x1002], 0x1000, 0x1000, 4⟩

/-- Original text bytes of the rollback scenario (16 bytes). -/
def rollbackOrigText : List Nat :=
  [0x55, 0x8B, 0xEC, 0x83, 0xEC, 0x10, 0x53, 0x56,
   0x57, 0x8B, 0xF1, 0x90, 0x90, 0x90, 0x90, 0xC3]

/-- Initial state of the rollback scenario: the new text section starts as
a copy of the original text section. -/
def rollbackState0 : PState := ⟨rollbackOrigText, [], [], [], [], []⟩

/-- The instruction of the rollback scenario: RVA 0x1000, 6 bytes, no
eflags. -/
def rollbackIns : PIns := ⟨0x1000, 6, 0⟩

/-- State after the instruction has been virtualized. -/
def rollbackState1 : PState :=
  match eachInstructionCallback rollbackCtx rollbackState0 rollbackIns with
  | Except.ok s => s
  | Except.error _ => rollbackState0

/-- State after the invalid-instruction rollback callback has reported the
same instruction. -/
def rollbackState2 : PState :=
  invalidInstructionCallback rollbackCtx rollbackOrigText rollbackState1
    0x1000 6

/-- The PE base-relocation entry (`Relocation` in the pe declarations,
outside the two core files): a 16-bit word with a 4-bit `type` and a
12-bit `offset` bitfield, modelled as two `Nat` fields. -/
structure Relocation where
  type : Nat
  offset : Nat
deriving DecidableEq

/-- Modelled from the spec (§4.6): `peutils::AlignDown` (the helper lives
in `pe/peutils.cpp`, outside the two core files) rounds down to a
multiple of `a`. -/
def alignDown (x a : Nat) : Nat := x / a * a

/-- The padding step of `AppendRelocationBlock` (protector.cpp:545-549):
if the count of relocations is odd, push one no-op entry with type 0 and
offset 0 to align the block to a 32-bit boundary. The model keeps the
final entry list of the flushed block; the byte serialization
(`CreateRelocationBlockBuffer`) and the relocation-directory size update
are not needed by the claims. -/
def padIfOdd (relocs : List Relocation) : List Relocation :=
  if relocs.length % 2 ≠ 0 then relocs ++ [⟨0, 0⟩] else relocs

/-- The offset loop of `AddRelocations` (protector.cpp:596-639): walk the
section offsets; when the delta from the current block virtual address
reaches 4096, flush the current block (padded) and start a new block at
the offset aligned down to a 4 KiB page, refreshing the entry's offset;
after the loop, flush the remaining entries if any
(protector.cpp:634-639). `t` is the relocation type of real entries
(`IMAGE_REL_BASED_HIGHLOW` = 3 in the x86 build). -/
def addRelocationsLoop (t : Nat) :
    List Nat → Nat → List Relocation → List (Nat × List Relocation) →
      List (Nat × List Relocation)
  | [], blockVA, cur, out =>
    if cur.length > 0 then out ++ [(blockVA, padIfOdd cur)] else out
  | o :: rest, blockVA, cur, out =>
    let delta := o - blockVA
    if delta ≥ 4096 then
      let newVA := alignDown o 4096
      addRelocationsLoop t rest newVA [⟨t, o - newVA⟩]
        (out ++ [(blockVA, padIfOdd cur)])
    else
      addRelocationsLoop t rest blockVA (cur ++ [⟨t, delta⟩]) out

/-- `AddRelocations` (protector.cpp:569-640) at the block level: empty
input returns nothing (protector.cpp:575-577); otherwise the first block
virtual address is the first offset aligned down to 4096
(`DetermineFirstRelocationBlockVirtualAddress`, protector.cpp:518-524)
and the loop produces the blocks in append order, each with its final
(possibly padded) entry list. -/
def addRelocations (t : Nat) (offsets : List Nat) :
    List (Nat × List Relocation) :=
  match offsets with
  | [] => []
  | o :: _ => addRelocationsLoop t offsets (alignDown o 4096) [] []

/-- The decoded-instruction facts `IsFunctionX86`
(pe_disassembly_engine.cpp:339-407) inspects on each of the three
instructions it disassembles (the capstone decoding itself is external):
whether it is a guaranteed jump (`JMP`/`LJMP`) and its immediate target,
whether it is `MOV EDI, EDI`, `PUSH EBP`, or `MOV EBP, ESP` (each of
those checks folds the opcode-id, operand-count and register tests of the
source into one boolean of the decoded record). -/
structure I32 where
  isJmp : Bool
  jmpImm : Nat
  isMovEdiEdi : Bool
  isPushEbp : Bool
  isMovEbpEsp : Bool

/-- Body of `IsFunctionX86`, written with fuel `11 - recursion_counter`:
the source returns false as soon as `recursion_counter > 10`, which is
exactly `fuel = 0`, and each followed jump passes `counter + 1`, which is
exactly `fuel - 1`. `decode3 rva` yields the three decoded instructions
starting at `rva` (`cs_disasm` with count 3), or `none` when fewer than
three decode (pe_disassembly_engine.cpp:352-361); `inText` is the
`IsRvaWithinSection(text, rva)` test on the jump target. -/
def isFunctionX86Go (decode3 : Nat → Option (I32 × I32 × I32))
    (inText : Nat → Bool) : Nat → Nat → Bool
  | 0, _ => false
  | fuel + 1, rva =>
    match decode3 rva with
    | none => false
    | some (i1, i2, i3) =>
      if i1.isJmp then
        if inText i1.jmpImm then isFunctionX86Go decode3 inText fuel i1.jmpImm
        else false
      else
        let p := if i1.isMovEdiEdi then (i2, i3) else (i1, i2)
        p.1.isPushEbp && p.2.isMovEbpEsp

/-- `IsFunctionX86` (pe_disassembly_engine.cpp:339-407) with its
`recursion_counter` argument; `IsFunction` calls it with counter 0. -/
def isFunctionX86 (decode3 : Nat → Option (I32 × I32 × I32))
    (inText : Nat → Bool) (rva counter : Nat) : Bool :=
  isFunctionX86Go decode3 inText (11 - counter) rva

/-- The decoded-instruction facts `IsFunctionX64`
(pe_disassembly_engine.cpp:409-557) inspects per instruction: byte size
(the stream advances by it), guaranteed-jump flag and immediate target,
the `mov [rsp + disp], reg` shape with its displacement, and the
`sub rsp, imm` shape. -/
structure I64 where
  size : Nat
  isJmp : Bool
  jmpImm : Nat
  isMovRspDispReg : Bool
  disp : Nat
  isSubRspImm : Bool

/-- The `mov [rsp + disp], reg` run of `IsFunctionX64`
(pe_disassembly_engine.cpp:520-531): decode `n` further instructions, all
of which must be such movs; returns the RVA after the run, or `none` on
any decode failure or non-mov. -/
def movRunLoop (decode : Nat → Option I64) : Nat → Nat → Option Nat
  | rva, 0 => some rva
  | rva, n + 1 =>
    match decode rva with
    | none => none
    | some ins =>
      if ins.isMovRspDispReg then movRunLoop decode (rva + ins.size) n
      else none

/-- The `sub rsp, imm` search of `IsFunctionX64`
(pe_disassembly_engine.cpp:533-554): scan up to 10 further instructions
for a `sub rsp, imm`; any decode failure answers false. -/
def subRspSearch (decode : Nat → Option I64) : Nat → Nat → Bool
  | _, 0 => false
  | rva, n + 1 =>
    match decode rva with
    | none => false
    | some ins =>
      if ins.isSubRspImm then true else subRspSearch decode (rva + ins.size) n

/-- `IsFunctionX64` (pe_disassembly_engine.cpp:409-557). Unlike the x86
variant, the source carries no recursion counter: a direct jump into
`.text` recurses unconditionally. The model therefore takes explicit
`fuel` for that jump-following recursion and returns `none` when the fuel
is exhausted — i.e. when the source recursion nests deeper than `fuel`
calls without terminating; `some b` means the source returns `b` within
that depth. -/
def isFunctionX64 (decode : Nat → Option I64) (inText : Nat → Bool) :
    Nat → Nat → Option Bool
  | _, 0 => none
  | rva, fuel + 1 =>
    match decode rva with
    | none => some false
    | some ins =>
      if ins.isJmp then
        if inText ins.jmpImm then isFunctionX64 decode inText ins.jmpImm fuel
        else some false
      else if ¬ ins.isMovRspDispReg then some false
      else if ins.disp % 8 ≠ 0 then some false
      else
        match movRunLoop decode (rva + ins.size) (ins.disp / 8 - 1) with
        | none => some false
        | some rva2 => some (subRspSearch decode rva2 10)

/-- `DisassemblyAction` (declared in the engine header, returned by
`ParseInstruction`): continue with the next instruction of the current
stream, or end the stream and pop the next disassembly point. -/
inductive DisassemblyAction where
  | NextInstruction
  | NextDisassemblyPoint
deriving DecidableEq

/-- The engine state the parse routines mutate: the work list of
disassembly points (`disassembly_points_`, a vector used as a stack via
`push_back`), the dedup cache (`disassembly_points_cache_`), and the data
ranges (`data_ranges_`). A disassembly point is kept as its RVA; the
paired code pointer always addresses the byte at that RVA inside the
image buffer (spec §3 invariant), so reads through it are modelled by
reading the image at the RVA. -/
structure DisasmState where
  points : List Nat
  cache : List Nat
  dataRanges : List (Nat × Nat)
deriving DecidableEq

/-- `AddDisassemblyPoint` (pe_disassembly_engine.cpp:823-833): if the RVA
is already in the cache do nothing, else push the point and remember the
RVA. -/
def addDisassemblyPoint (s : DisasmState) (rva : Nat) : DisasmState :=
  if rva ∈ s.cache then s
  else { s with points := s.points ++ [rva], cache := s.cache ++ [rva] }

/-- Operand type tag of the neutral decoded operand
(`x86_op_type` of the external decoder). -/
inductive OpType where
  | reg
  | imm
  | mem
deriving DecidableEq

/-- A decoded operand: its type tag, immediate value, and for memory
operands the scale and displacement (the fields `ParseInstruction` and
the jump-table heuristic read). -/
structure Operand where
  type : OpType
  imm : Nat
  memScale : Nat
  memDisp : Nat
deriving DecidableEq

/-- The opcode identifiers `ParseInstruction` distinguishes
(`x86_insn`): `MOV`, `PUSH`, `JMP`, `LJMP`, and everything else. -/
inductive InsnId where
  | mov
  | push
  | jmp
  | ljmp
  | other
deriving DecidableEq

/-- The slice of a decoded instruction `ParseInstruction` inspects:
address, size, opcode id, the four `cs_insn_group` memberships
(pe_disassembly_engine.cpp:561-568), and the operand list. -/
structure Insn32 where
  address : Nat
  size : Nat
  id : InsnId
  isRet : Bool
  isInt : Bool
  isJump : Bool
  isCall : Bool
  ops : List Operand

/-- `IsGuaranteedJump` (pe_disassembly_engine.cpp:46-49). -/
def isGuaranteedJump (ins : Insn32) : Bool :=
  decide (ins.id = InsnId.jmp) || decide (ins.id = InsnId.ljmp)

/-- The per-run inputs of the disassembly engine: image base, section
ranges (`(VirtualAddress, size)` pairs) for `FromRva`, the `.text` range,
a 32-bit read of the image at an RVA (the pointer arithmetic of the
source always resolves to the byte at the RVA being read), the external
3-instruction decode used by the prologue test, and the fuel given to the
jump-table scan (the source loop is unbounded; the scenario theorems use
ample fuel). -/
structure EngineCfg where
  imageBase : Nat
  sections : List (Nat × Nat)
  text : Nat × Nat
  mem32 : Nat → Nat
  decode3 : Nat → Option (I32 × I32 × I32)
  jtFuel : Nat

/-- Modelled from the spec (§3): `section::IsRvaWithinSection` (in
`pe/section.cpp`, outside the two core files) — a section covers the RVA
range `[VirtualAddress, VirtualAddress + size)`. -/
def inSection (sec : Nat × Nat) (rva : Nat) : Bool :=
  decide (sec.1 ≤ rva) && decide (rva < sec.1 + sec.2)

/-- Modelled from the spec (§3): `SectionHeaders::FromRva` — the section
containing the RVA, or none. -/
def fromRva (sections : List (Nat × Nat)) (rva : Nat) : Option (Nat × Nat) :=
  sections.find? (fun sec => inSection sec rva)

/-- `GetOperandRva`, x86 branch (pe_disassembly_engine.cpp:51-78): the
immediate or memory displacement minus the image base, in wrapping
pointer arithmetic. -/
def getOperandRvaX86 (imageBase v : Nat) : Nat := sub32 v imageBase

/-- `IsJumpTableX86` (pe_disassembly_engine.cpp:112-131): a guaranteed
jump or `MOV` with a memory operand of scale 4 whose displacement-derived
RVA lies inside `.text`. -/
def isJumpTableX86 (cfg : EngineCfg) (ins : Insn32) (op : Operand) : Bool :=
  (isGuaranteedJump ins || decide (ins.id = InsnId.mov)) &&
    (decide (op.type = OpType.mem) && decide (op.memScale = 4)) &&
    inSection cfg.text (getOperandRvaX86 cfg.imageBase op.memDisp)

/-- `IsJumpTable` in the x86 build (pe_disassembly_engine.cpp:94-110):
only single-operand instructions are considered. -/
def isJumpTable (cfg : EngineCfg) (ins : Insn32) : Bool :=
  match ins.ops with
  | [op] => isJumpTableX86 cfg ins op
  | _ => false

/-- `IsVTableOrFunction` (pe_disassembly_engine.cpp:80-92): first operand
is memory, second is immediate, and the immediate-derived RVA lies inside
some section. -/
def isVTableOrFunction (cfg : EngineCfg) (op1 op2 : Operand) : Bool :=
  decide (op1.type = OpType.mem) && decide (op2.type = OpType.imm) &&
    (fromRva cfg.sections (getOperandRvaX86 cfg.imageBase op2.imm)).isSome

/-- The scan loop of `ParseJumpTable` (pe_disassembly_engine.cpp:243-308)
in the x86 build: each iteration re-derives the table disassembly point
(whose RVA is the constant operand RVA) and checks it lies in some
section, reads the 32-bit entry at `table + i`, stops on `0xCCCCCCCC` or
`0`, converts the entry to an RVA by subtracting the image base, stops if
that RVA is outside `.text`, else enqueues it and advances `i` by the
operand scale. Returns the state and the final value of `i`. The source
loop has no iteration bound, so the model carries fuel. -/
def parseJumpTableLoop (cfg : EngineCfg) (tableRva scale : Nat) :
    Nat → Nat → DisasmState → DisasmState × Nat
  | 0, i, s => (s, i)
  | fuel + 1, i, s =>
    if (fromRva cfg.sections tableRva).isNone then (s, i)
    else
      let v := cfg.mem32 (tableRva + i)
      if v = 0xCCCCCCCC ∨ v = 0 then (s, i)
      else
        let rva := sub32 v cfg.imageBase
        if inSection cfg.text rva then
          parseJumpTableLoop cfg tableRva scale fuel (i + scale)
            (addDisassemblyPoint s rva)
        else (s, i)

/-- `ParseJumpTable` (pe_disassembly_engine.cpp:233-313): run the scan
from the operand RVA, then record the consumed bytes as the data range
`[operand_rva, operand_rva + i)` where `i` is the loop counter at the
break. -/
def parseJumpTable (cfg : EngineCfg) (s : DisasmState) (op : Operand) :
    DisasmState :=
  let tableRva := getOperandRvaX86 cfg.imageBase op.memDisp
  let r := parseJumpTableLoop cfg tableRva op.memScale cfg.jtFuel 0 s
  { r.1 with dataRanges := r.1.dataRanges ++ [(tableRva, tableRva + r.2)] }

/-- `ParseInstruction` in the x86 build
(pe_disassembly_engine.cpp:559-757): returns the disassembly action and
the updated engine state. Return and interrupt instructions end the
stream; calls and jumps with a single immediate operand enqueue the
target (the immediate is already the target RVA for the stream the
engine decodes); a jump-table operand is parsed; `MOV mem, imm` whose
immediate-derived RVA is in some section, in `.text`, and passes the
prologue test enqueues the target and continues; `PUSH imm` likewise. -/
def parseInstruction (cfg : EngineCfg) (s : DisasmState) (ins : Insn32) :
    DisassemblyAction × DisasmState :=
  if ins.isRet then (DisassemblyAction.NextDisassemblyPoint, s)
  else if ins.isCall || ins.isJump then
    match ins.ops with
    | [op] =>
      if op.type = OpType.imm then
        let s2 := addDisassemblyPoint s op.imm
        if isGuaranteedJump ins then (DisassemblyAction.NextDisassemblyPoint, s2)
        else (DisassemblyAction.NextInstruction, s2)
      else if isJumpTable cfg ins then
        (DisassemblyAction.NextDisassemblyPoint, parseJumpTable cfg s op)
      else if isGuaranteedJump ins then
        (DisassemblyAction.NextDisassemblyPoint, s)
      else (DisassemblyAction.NextInstruction, s)
    | _ => (DisassemblyAction.NextDisassemblyPoint, s)
  else if ins.isInt then (DisassemblyAction.NextDisassemblyPoint, s)
  else
    match ins.id with
    | InsnId.mov =>
      match ins.ops with
      | [op1, op2] =>
        if isJumpTable cfg ins then
          (DisassemblyAction.NextDisassemblyPoint, parseJumpTable cfg s op2)
        else if isVTableOrFunction cfg op1 op2 then
          let rva := getOperandRvaX86 cfg.imageBase op2.imm
          if inSection cfg.text rva &&
              isFunctionX86 cfg.decode3 (fun r => inSection cfg.text r) rva 0 then
            (DisassemblyAction.NextInstruction, addDisassemblyPoint s rva)
          else (DisassemblyAction.NextInstruction, s)
        else (DisassemblyAction.NextInstruction, s)
      | _ => (DisassemblyAction.NextInstruction, s)
    | InsnId.push =>
      match ins.ops with
      | op :: _ =>
        if op.type = OpType.imm then
          let rva := getOperandRvaX86 cfg.imageBase op.imm
          if inSection cfg.text rva then
            if isFunctionX86 cfg.decode3 (fun r => inSection cfg.text r) rva 0 then
              (DisassemblyAction.NextInstruction, addDisassemblyPoint s rva)
            else (DisassemblyAction.NextInstruction, s)
          else (DisassemblyAction.NextInstruction, s)
        else (DisassemblyAction.NextInstruction, s)
      | [] => (DisassemblyAction.NextInstruction, s)
    | _ => (DisassemblyAction.NextInstruction, s)

/-- Scenario S1 configuration: image base 0x400000, a single `.text`
section `[0x1000, 0x2000)`, and a jump table at RVA 0x1020 holding the
dwords 0x00401030, 0x00401040, 0x00000000. -/
def s1Cfg : EngineCfg :=
  ⟨0x400000, [(0x1000, 0x1000)], (0x1000, 0x1000),
   fun a => if a = 0x1020 then 0x401030 else if a = 0x1024 then 0x401040 else 0,
   fun _ => none, 16⟩

/-- Scenario S1 instruction: `JMP [eax*4+0x401020]` at RVA 0x1000 — a
jump-group instruction with one memory operand of scale 4 and
displacement 0x401020. -/
def s1Ins : Insn32 :=
  ⟨0x1000, 7, InsnId.jmp, false, false, true, false,
   [⟨OpType.mem, 0, 4, 0x401020⟩]⟩

/-- Result of running `ParseInstruction` on the S1 input from an empty
engine state. -/
def s1Result : DisassemblyAction × DisasmState :=
  parseInstruction s1Cfg ⟨[], [], []⟩ s1Ins

/-- The section-header fields `ParseRDataSection` reads. -/
structure NamedSection where
  name : String
  rawSize : Nat
  ptrRaw : Nat
deriving DecidableEq

/-- The error `ParseRDataSection` can throw
(pe_disassembly_engine.cpp:777-779). -/
inductive DisasmError where
  | rdataNotFound
deriving DecidableEq

/-- `ParseRDataSection` (pe_disassembly_engine.cpp:774-821): if no
section is named `.rdata`, throw; otherwise scan the section's raw data
in pointer-sized (4-byte, x86 build) steps: skip zero slots, derive an
RVA by subtracting the image base, and when the RVA is in `.text`, has a
non-zero file offset (`RvaToFileOffset`, modelled as the function
`rvaToFile` since the PE model lives outside the two core files), and
passes the prologue test, enqueue it. -/
def parseRDataSection (sections : List NamedSection) (imageBase : Nat)
    (mem32 : Nat → Nat) (rvaToFile : Nat → Nat) (text : Nat × Nat)
    (decode3 : Nat → Option (I32 × I32 × I32)) (s : DisasmState) :
    Except DisasmError DisasmState :=
  match sections.find? (fun sec => sec.name = ".rdata") with
  | none => Except.error DisasmError.rdataNotFound
  | some rd =>
    Except.ok <|
      (List.range ((rd.rawSize + 3) / 4)).foldl
        (fun st k =>
          let v := mem32 (rd.ptrRaw + 4 * k)
          if v = 0 then st
          else
            let rva := sub32 v imageBase
            if inSection text rva then
              if rvaToFile rva = 0 then st
              else if isFunctionX86 decode3 (fun r => inSection text r) rva 0
              then addDisassemblyPoint st rva
              else st
            else st)
        s

/-- The outputs of the pre-existing-directory branch of
`AddTlsCallbacks` that the claims inspect: the virtualized-code section
bytes after the append, the section offset of the new callback table, the
relocation offsets pushed to
`virtualized_code_section_offsets_to_add_to_relocation_table`, the two
fixups pushed, and the value written over `AddressOfCallBacks` in the
source TLS directory. -/
structure TlsResult where
  vcData : List Nat
  listOffset : Nat
  relocOffsets : List Nat
  fixups : List Fixup
  addressOfCallBacks : Nat

/-- `AddTlsCallbacks`, pre-existing-TLS-directory branch
(protector.cpp:218-307), x86 build (`sizeof(uintptr_t)` = 4):
`existing` is the callback list read by `CopyTlsCallbackList`; `funcOff`
is the interpreter's `TlsCallback` offset relative to its section;
`defaultBase` models `DEFAULT_PE_BASE_ADDRESS`, which is declared in the
interpreter's `main.h` outside the two core files — the spec (§4.7) calls
it `image_base_default` and gives no numeric value, so the model carries
it as an explicit argument (scenario theorems use the conventional EXE
base 0x400000); `tlsDirFileOffset` is the file offset of the source
`IMAGE_TLS_DIRECTORY`, in which `AddressOfCallBacks` sits at structure
offset 12 (32-bit layout). The branch appends `defaultBase + funcOff` and
five zero slots to the copied list, serializes it into the
virtualized-code section, records a relocation offset for every non-zero
slot, records the fixup for its own callback slot
(`VirtualizedCodeSection` origin, `AddVmLoaderSectionVirtualAddress`) and
the `Beginning`-origin fixup for the overwritten `AddressOfCallBacks`
field (`AddVirtualizedCodeSectionVirtualAddress`), and overwrites
`AddressOfCallBacks` with `defaultBase + table_offset`. -/
def addTlsCallbacksExisting (defaultBase funcOff : Nat) (existing : List Nat)
    (vc : List Nat) (falign : Nat) (tlsDirFileOffset : Nat) : TlsResult :=
  let callbacks := existing ++ (defaultBase + funcOff) :: [0, 0, 0, 0, 0]
  let bytes := (callbacks.map le32Bytes).flatten
  let app := secAppend vc bytes falign
  let listOff := app.2
  let myIndex := existing.length
  let relocs := (List.range callbacks.length).filterMap
    (fun i => if getByte callbacks i ≠ 0 then some (listOff + i * 4) else none)
  let f1 : Fixup := ⟨listOff + myIndex * 4,
    ⟨OffsetRelativeTo.VirtualizedCodeSection, 4,
      FixupOperation.AddVmLoaderSectionVirtualAddress⟩⟩
  let f2 : Fixup := ⟨tlsDirFileOffset + 12,
    ⟨OffsetRelativeTo.Beginning, 4,
      FixupOperation.AddVirtualizedCodeSectionVirtualAddress⟩⟩
  ⟨app.1, listOff, relocs, [f1, f2], defaultBase + listOff⟩

/-- Configuration for the C8 scenarios: image base 0x400000, one `.text`
section `[0x1000, 0x2000)`, and a 3-instruction decode that always sees
`PUSH EBP ; MOV EBP, ESP`, so the prologue test accepts every RVA. -/
def c8Cfg : EngineCfg :=
  ⟨0x400000, [(0x1000, 0x1000)], (0x1000, 0x1000), fun _ => 0,
   fun _ => some (⟨false, 0, false, true, false⟩,
     ⟨false, 0, false, false, true⟩, ⟨false, 0, false, false, false⟩), 16⟩

/-- A decoded `MOV reg, imm` at RVA 0x1100 whose immediate 0x401005
derives the RVA 0x1005 inside `.text`. -/
def c8RegIns : Insn32 :=
  ⟨0x1100, 5, InsnId.mov, false, false, false, false,
   [⟨OpType.reg, 0, 0, 0⟩, ⟨OpType.imm, 0x401005, 0, 0⟩]⟩

/-- A decoded `MOV mem, imm` at RVA 0x1100 with the same immediate. -/
def c8MemIns : Insn32 :=
  ⟨0x1100, 5, InsnId.mov, false, false, false, false,
   [⟨OpType.mem, 0, 4, 0x2000⟩, ⟨OpType.imm, 0x401005, 0, 0⟩]⟩

theorem getByte_set_self {l : List Nat} {i : Nat} (h : i < l.length) (v : Nat) :
    getByte (l.set i v) i = v := by
  simp [getByte, List.getD_eq_getElem?_getD, List.getElem?_set_self, h]

theorem getByte_set_other {l : List Nat} {i j : Nat} (h : i ≠ j) (v : Nat) :
    getByte (l.set i v) j = getByte l j := by
  simp [getByte, List.getD_eq_getElem?_getD, List.getElem?_set_ne h]

theorem le32Read_le32Write {l : List Nat} {i : Nat} (h : i + 4 ≤ l.length) (v : Nat) :
    le32Read (le32Write l i v) i = v % M32 := by
  have h0 : i < l.length := by omega
  have h1 : i + 1 < l.length := by omega
  have h2 : i + 2 < l.length := by omega
  have h3 : i + 3 < l.length := by omega
  have g0 : getByte (le32Write l i v) i = v % 256 := by
    unfold le32Write
    rw [getByte_set_other (by omega), getByte_set_other (by omega),
      getByte_set_other (by omega)]
    exact getByte_set_self h0 _
  have g1 : getByte (le32Write l i v) (i + 1) = v / 256 % 256 := by
    unfold le32Write
    rw [getByte_set_other (by omega), getByte_set_other (by omega)]
    exact getByte_set_self (by simpa using h1) _
  have g2 : getByte (le32Write l i v) (i + 2) = v / 65536 % 256 := by
    unfold le32Write
    rw [getByte_set_other (by omega)]
    exact getByte_set_self (by simpa using h2) _
  have g3 : getByte (le32Write l i v) (i + 3) = v / 16777216 % 256 := by
    unfold le32Write
    exact getByte_set_self (by simpa using h3) _
  unfold le32Read
  rw [g0, g1, g2, g3]
  unfold M32
  omega

theorem getByte_le32Write_lt {l : List Nat} {i j : Nat} (h : j < i) (v : Nat) :
    getByte (le32Write l i v) j = getByte l j := by
  unfold le32Write
  rw [getByte_set_other (by omega), getByte_set_other (by omega),
    getByte_set_other (by omega), getByte_set_other (by omega)]

theorem le32Write_length (l : List Nat) (i v : Nat) :
    (le32Write l i v).length = l.length := by
  simp [le32Write]

theorem lowerBound_cons (y : Nat) (l : List Nat) (x : Nat) :
    lowerBound (y :: l) x = if y < x then lowerBound l x + 1 else 0 := by
  by_cases h : y < x <;> simp [lowerBound, List.takeWhile_cons, h]

theorem mem_take_lowerBound {l : List Nat} {x y : Nat}
    (h : y ∈ l.take (lowerBound l x)) : y < x := by
  induction l with
  | nil => simp [lowerBound] at h
  | cons z t ih =>
    rw [lowerBound_cons] at h
    by_cases hz : z < x
    · simp [hz, List.take_succ_cons] at h
      rcases h with h | h
      · omega
      · exact ih h
    · simp [hz] at h

theorem lowerBound_getD_mem {l : List Nat} {x : Nat}
    (hs : List.Pairwise (· < ·) l) (hx : x ∈ l) :
    lowerBound l x < l.length ∧ l.getD (lowerBound l x) 0 = x := by
  induction l with
  | nil => simp at hx
  | cons y t ih =>
    rcases List.pairwise_cons.mp hs with ⟨hy, ht⟩
    rw [lowerBound_cons]
    rcases List.mem_cons.mp hx with rfl | hxt
    · have : ¬ x < x := lt_irrefl x
      simp [this]
    · have hyx : y < x := hy x hxt
      rcases ih ht hxt with ⟨h1, h2⟩
      simp only [hyx, if_pos]
      constructor
      · simpa using Nat.succ_lt_succ h1
      · simpa using h2

theorem getD_mem {l : List Nat} {j : Nat} (h : j < l.length) : l.getD j 0 ∈ l := by
  rw [List.getD_eq_getElem l 0 h]
  exact List.getElem_mem h

theorem relocSearchLoop_found {l : List Nat} {a : Nat}
    (hs : List.Pairwise (· < ·) l) :
    ∀ (n i k : Nat), k < n → (a + (i + k)) ∈ l →
      (∀ m, m < k → (a + (i + m)) ∉ l) →
      relocSearchLoop l a i n = some (lowerBound l (a + (i + k))) := by
  intro n
  induction n with
  | zero => intro i k hk; omega
  | succ n ih =>
    intro i k hk hmem hmin
    rcases k with _ | m
    · rcases lowerBound_getD_mem hs (by simpa using hmem) with ⟨h1, h2⟩
      rw [List.getD_eq_getElem l 0 h1] at h2
      unfold relocSearchLoop
      simp only [h1, dif_pos, h2, if_pos]
      simp
    · have hni : (a + i) ∉ l := by
        have := hmin 0 (Nat.succ_pos m)
        simpa using this
      unfold relocSearchLoop
      have hrec : relocSearchLoop l a (i + 1) n =
          some (lowerBound l (a + (i + 1 + m))) := by
        apply ih (i + 1) m (by omega)
        · have : a + (i + 1 + m) = a + (i + (m + 1)) := by omega
          rw [this]; exact hmem
        · intro m2 hm2
          have : a + (i + 1 + m2) = a + (i + (m2 + 1)) := by omega
          rw [this]; exact hmin (m2 + 1) (by omega)
      have harg : a + (i + 1 + m) = a + (i + (m + 1)) := by omega
      by_cases h1 : lowerBound l (a + i) < l.length
      · have hne : ¬ l[lowerBound l (a + i)] = a + i := by
          intro heq
        -- the element at the found index would be an exact hit,
        -- contradicting that a + i is not in the vector
          apply hni
          rw [← heq]
          exact List.getElem_mem h1
        simp only [h1, dif_pos]
        rw [if_neg hne, hrec, harg]
      · simp only [h1, dif_neg, not_false_iff]
        rw [hrec, harg]

theorem relocSearchLoop_notfound {l : List Nat} {a : Nat} :
    ∀ (n i : Nat), (∀ k, k < n → (a + (i + k)) ∉ l) →
      relocSearchLoop l a i n = none := by
  intro n
  induction n with
  | zero => intro i _; rfl
  | succ n ih =>
    intro i hnone
    have hni : (a + i) ∉ l := by
      have := hnone 0 (Nat.succ_pos n)
      simpa using this
    unfold relocSearchLoop
    have hrec : relocSearchLoop l a (i + 1) n = none := by
      apply ih
      intro k hk
      have : a + (i + 1 + k) = a + (i + (k + 1)) := by omega
      rw [this]; exact hnone (k + 1) (by omega)
    by_cases h1 : lowerBound l (a + i) < l.length
    · have hne : ¬ l[lowerBound l (a + i)] = a + i := by
        intro heq
        apply hni
        rw [← heq]
        exact List.getElem_mem h1
      simp only [h1, dif_pos, hne, if_neg]
      exact hrec
    · simp only [h1, dif_neg, not_false_iff]
      exact hrec

theorem filter_eq_takeWhile_sorted {a c : Nat} :
    ∀ (rest : List Nat), List.Pairwise (· < ·) rest → (∀ y ∈ rest, a ≤ y) →
      rest.filter (fun r => decide (a ≤ r) && decide (r < c)) =
        rest.takeWhile (fun r => decide (a ≤ r) && decide (r < c)) := by
  intro rest
  induction rest with
  | nil => intro _ _; rfl
  | cons y t ih =>
    intro hs hge
    rcases List.pairwise_cons.mp hs with ⟨hy, ht⟩
    have hay : a ≤ y := hge y (List.mem_cons_self y t)
    by_cases hc : y < c
    · have hP : (decide (a ≤ y) && decide (y < c)) = true := by
        simp [hay, hc]
      rw [List.filter_cons, List.takeWhile_cons, if_pos hP, if_pos hP]
      rw [ih ht (fun z hz => hge z (List.mem_cons_of_mem y hz))]
    · have hP : ¬ ((decide (a ≤ y) && decide (y < c)) = true) := by
        simp [hc]
      rw [List.filter_cons, List.takeWhile_cons, if_neg hP, if_neg hP]
      apply List.filter_eq_nil_iff.mpr
      intro z hz
      have : y < z := hy z hz
      simp
      omega

/-- C9: for every instruction `[a, a + s)` and every ascending,
duplicate-free sorted list of relocation RVAs,
`GetRelocationsWithinInstruction` returns exactly the elements `r` of the
list with `a ≤ r < a + s`, in ascending order (i.e. it equals the order-
preserving filter of the list by that interval). -/
theorem C9_relocations_within_instruction (a s : Nat) (l : List Nat)
    (hs : List.Pairwise (· < ·) l) :
    getRelocationsWithinInstruction a s l =
      l.filter (fun r => decide (a ≤ r) && decide (r < a + s)) := by
  by_cases hex : ∃ k, k < s ∧ (a + k) ∈ l
  · have hk0 := Nat.find_spec hex
    obtain ⟨hk0s, hk0mem⟩ := hk0
    have hmin : ∀ m, m < Nat.find hex → (a + m) ∉ l := by
      intro m hm hmmem
      exact (Nat.find_min hex hm) ⟨by omega, hmmem⟩
    have hloop : relocSearchLoop l a 0 s =
        some (lowerBound l (a + Nat.find hex)) := by
      have := relocSearchLoop_found hs s 0 (Nat.find hex) hk0s
        (by simpa using hk0mem) (by intro m hm; simpa using hmin m hm)
      simpa using this
    rcases lowerBound_getD_mem hs hk0mem with ⟨hj, hgd⟩
    simp only [getRelocationsWithinInstruction, hloop]
    have h2 : l.drop (lowerBound l (a + Nat.find hex)) =
        (a + Nat.find hex) :: l.drop (lowerBound l (a + Nat.find hex) + 1) := by
      rw [List.drop_eq_getElem_cons hj]
      rw [← List.getD_eq_getElem l 0 hj, hgd]
    have hsdrop : List.Pairwise (· < ·)
        (l.drop (lowerBound l (a + Nat.find hex))) :=
      hs.sublist (List.drop_sublist _ _)
    rw [h2] at hsdrop
    rcases List.pairwise_cons.mp hsdrop with ⟨hgt, hsrest⟩
    conv_rhs => rw [← List.take_append_drop (lowerBound l (a + Nat.find hex)) l]
    rw [List.filter_append, h2, List.filter_cons]
    have hPk0 : (decide (a ≤ a + Nat.find hex) &&
        decide (a + Nat.find hex < a + s)) = true := by
      simp only [Bool.and_eq_true, decide_eq_true_eq]
      exact ⟨Nat.le_add_right a _, by omega⟩
    rw [if_pos hPk0]
    have htake : (l.take (lowerBound l (a + Nat.find hex))).filter
        (fun r => decide (a ≤ r) && decide (r < a + s)) = [] := by
      apply List.filter_eq_nil_iff.mpr
      intro y hy
      have hylt : y < a + Nat.find hex := mem_take_lowerBound hy
      have hyl : y ∈ l := List.mem_of_mem_take hy
      simp
      intro hay
      by_contra hys
      apply hmin (y - a) (by omega)
      have hya : a + (y - a) = y := by omega
      rw [hya]
      exact hyl
    rw [htake, List.nil_append, hgd]
    rw [filter_eq_takeWhile_sorted _ hsrest
      (fun y hy => le_of_lt (lt_of_le_of_lt (Nat.le_add_right a _) (hgt y hy)))]
  · have hloop : relocSearchLoop l a 0 s = none := by
      apply relocSearchLoop_notfound s 0
      intro k hk hmem
      exact hex ⟨k, hk, by simpa using hmem⟩
    simp only [getRelocationsWithinInstruction, hloop]
    symm
    apply List.filter_eq_nil_iff.mpr
    intro r hr
    by_contra hP
    simp at hP
    apply hex
    refine ⟨r - a, by omega, ?_⟩
    have hra : a + (r - a) = r := by omega
    rw [hra]
    exact hr

/-- Witness for C9 at a concrete sorted relocation vector. -/
theorem C9_relocations_within_instruction_witness :
    getRelocationsWithinInstruction 4098 8 [4096, 4100, 4104] = [4100, 4104] := by
  rw [C9_relocations_within_instruction 4098 8 [4096, 4100, 4104] (by decide)]
  decide

theorem foldl_set_length (g : Nat → Nat) (off : Nat) :
    ∀ (ks : List Nat) (t : List Nat),
      (ks.foldl (fun t2 k => t2.set (off + k) (g k)) t).length = t.length := by
  intro ks
  induction ks with
  | nil => intro t; rfl
  | cons k rest ih =>
    intro t
    rw [List.foldl_cons, ih]
    simp

theorem fillRandom_length (t : List Nat) (rnd : Nat → Nat) (off size : Nat) :
    (fillRandom t rnd off size).length = t.length :=
  foldl_set_length (fun k => rnd k % 256) off (List.range size) t

theorem eachInstructionCallback_ok (ctx : PCtx) (s : PState) (ins : PIns)
    (hvirt : ctx.isVirt ins = true) (hflags : ins.eflags = 0)
    (hvm : (ctx.vmBytes ins).length ≠ 0) :
    eachInstructionCallback ctx s ins = Except.ok
      { newText := patchInstructionBytes s.newText ctx.rnd
          (ins.address - ctx.textVA) ins.size s.vmLoader.length ins.address
        vmLoader := (secAppend s.vmLoader (ctx.loader ins).bytes ctx.falign).1
        vc := (secAppend s.vc (ctx.vmBytes ins) ctx.falign).1
        fixups := s.fixups ++
          [⟨s.vmLoader.length + (ctx.loader ins).origAddrOff,
             ⟨OffsetRelativeTo.VmLoaderSection, 4,
               FixupOperation.SubtractVmLoaderSectionVirtualAddress⟩⟩,
           ⟨s.vmLoader.length + (ctx.loader ins).vmCodeAddrOff,
             ⟨OffsetRelativeTo.VmLoaderSection, 4,
               FixupOperation.AddVirtualizedCodeSectionVirtualAddress⟩⟩,
           jmpToVmLoaderFixup (ins.address - ctx.textVA)]
        vmRelocOffsets := s.vmRelocOffsets ++
          [s.vmLoader.length + (ctx.loader ins).imageBaseOff]
        relocRvasToRemove := s.relocRvasToRemove ++
          getRelocationsWithinInstruction ins.address ins.size ctx.relocRvas } := by
  unfold eachInstructionCallback
  rw [hvirt]
  rw [if_pos rfl]
  rw [if_neg (by simp [hflags])]
  rw [if_pos hvm]
  rfl

/-- C1: for every virtualized instruction (size at least 5), after the
text patch and the application of the recorded `TextSection` fixup, the
byte at the instruction's text-section offset is `E9` and the 32-bit
little-endian displacement at the following four bytes satisfies
`displacement + (address + 5) ≡ loader_offset + vm_loader_VA (mod 2^32)`,
i.e. the displacement equals
`loader_offset_in_vm_loader_section + vm_loader_section.VirtualAddress -
(address + 5)` in 32-bit arithmetic. -/
theorem C1_text_patch_displacement (ctx : PCtx) (s s2 : PState) (ins : PIns)
    (vmVA vcVA : Nat)
    (hrun : eachInstructionCallback ctx s ins = Except.ok s2)
    (hvirt : ctx.isVirt ins = true) (hflags : ins.eflags = 0)
    (hvm : (ctx.vmBytes ins).length ≠ 0)
    (hnoprev : s.fixups = [])
    (hva : ctx.textVA ≤ ins.address)
    (hsz : 5 ≤ ins.size)
    (hlen : ins.address - ctx.textVA + ins.size ≤ s.newText.length) :
    getByte (applyTextFixups vmVA vcVA s2.fixups s2.newText)
      (ins.address - ctx.textVA) = 0xE9 ∧
    (le32Read (applyTextFixups vmVA vcVA s2.fixups s2.newText)
        (ins.address - ctx.textVA + 1) + (ins.address + 5)) % M32 =
      (s.vmLoader.length + vmVA) % M32 := by
  rw [eachInstructionCallback_ok ctx s ins hvirt hflags hvm] at hrun
  injection hrun with hrec
  subst hrec
  rw [hnoprev]
  simp only [List.nil_append]
  set off := ins.address - ctx.textVA with hoff
  set lo := s.vmLoader.length with hlo
  have happ : applyTextFixups vmVA vcVA
      [⟨lo + (ctx.loader ins).origAddrOff,
         ⟨OffsetRelativeTo.VmLoaderSection, 4,
           FixupOperation.SubtractVmLoaderSectionVirtualAddress⟩⟩,
       ⟨lo + (ctx.loader ins).vmCodeAddrOff,
         ⟨OffsetRelativeTo.VmLoaderSection, 4,
           FixupOperation.AddVirtualizedCodeSectionVirtualAddress⟩⟩,
       jmpToVmLoaderFixup off]
      (patchInstructionBytes s.newText ctx.rnd off ins.size lo ins.address) =
      le32Write
        (patchInstructionBytes s.newText ctx.rnd off ins.size lo ins.address)
        (off + 1)
        (applyFixup32 vmVA vcVA
          (le32Read
            (patchInstructionBytes s.newText ctx.rnd off ins.size lo
              ins.address) (off + 1))
          FixupOperation.AddVmLoaderSectionVirtualAddress) := by
    rfl
  rw [happ]
  have hWlen : ((fillRandom s.newText ctx.rnd off ins.size).set off
      0xE9).length = s.newText.length := by
    rw [List.length_set, fillRandom_length]
  have hPlen : (patchInstructionBytes s.newText ctx.rnd off ins.size lo
      ins.address).length = s.newText.length := by
    unfold patchInstructionBytes
    rw [le32Write_length, hWlen]
  have hofflen : off + 5 ≤ s.newText.length := by omega
  have hread : le32Read
      (patchInstructionBytes s.newText ctx.rnd off ins.size lo ins.address)
      (off + 1) = jmpDestination lo ins.address % M32 := by
    unfold patchInstructionBytes
    exact le32Read_le32Write (by rw [hWlen]; omega) _
  constructor
  · rw [getByte_le32Write_lt (by omega)]
    unfold patchInstructionBytes
    rw [getByte_le32Write_lt (by omega)]
    exact getByte_set_self (by rw [fillRandom_length]; omega) _
  · rw [le32Read_le32Write (by rw [hPlen]; omega)]
    rw [hread]
    have hsimp : applyFixup32 vmVA vcVA (jmpDestination lo ins.address % M32)
        FixupOperation.AddVmLoaderSectionVirtualAddress =
        (jmpDestination lo ins.address % M32 + vmVA) % M32 := rfl
    rw [hsimp]
    unfold jmpDestination sub32 M32
    omega

/-- Witness for C1: the rollback scenario's virtualized instruction with
final section VAs 0x5000 and 0x6000. -/
theorem C1_text_patch_displacement_witness :
    getByte (applyTextFixups 0x5000 0x6000 rollbackState1.fixups
      rollbackState1.newText) (rollbackIns.address - rollbackCtx.textVA) =
      0xE9 ∧
    (le32Read (applyTextFixups 0x5000 0x6000 rollbackState1.fixups
        rollbackState1.newText)
        (rollbackIns.address - rollbackCtx.textVA + 1) +
      (rollbackIns.address + 5)) % M32 =
      (rollbackState0.vmLoader.length + 0x5000) % M32 :=
  C1_text_patch_displacement rollbackCtx rollbackState0 rollbackState1
    rollbackIns 0x5000 0x6000 (by rfl) (by rfl) (by rfl) (by decide)
    (by rfl) (by decide) (by decide) (by decide)

/-- C2: whenever the per-instruction callback receives an instruction that
the virtualizer classifies as virtualizable but whose eflags mask is
non-zero, the callback raises `UnsupportedInstruction`; consequently any
run whose instruction stream contains such an instruction aborts with
that error, and no output image is produced (the error carries no state,
so all partial progress is discarded). -/
theorem C2_eflags_abort (ctx : PCtx) (insns : List PIns) (ins : PIns)
    (s0 s : PState) (hmem : ins ∈ insns) (hvirt : ctx.isVirt ins = true)
    (hflags : ins.eflags ≠ 0) :
    eachInstructionCallback ctx s ins =
      Except.error ProtectError.UnsupportedInstruction ∧
    protectRun ctx insns s0 =
      Except.error ProtectError.UnsupportedInstruction ∧
    protectOutput ctx insns s0 = none := by
  have herr : ∀ st : PState, eachInstructionCallback ctx st ins =
      Except.error ProtectError.UnsupportedInstruction := by
    intro st
    unfold eachInstructionCallback
    rw [hvirt]
    simp [hflags]
  have hrun : ∀ (l : List PIns) (st : PState), ins ∈ l →
      protectRun ctx l st =
        Except.error ProtectError.UnsupportedInstruction := by
    intro l
    induction l with
    | nil => intro st h; simp at h
    | cons hd tl ih =>
      intro st hmem2
      rcases List.mem_cons.mp hmem2 with rfl | htl
      · unfold protectRun
        rw [herr st]
      · unfold protectRun
        cases hcb : eachInstructionCallback ctx st hd with
        | error e => cases e; rfl
        | ok s2 => exact ih s2 htl
  refine ⟨herr s, hrun insns s0 hmem, ?_⟩
  unfold protectOutput
  rw [hrun insns s0 hmem]

/-- Witness for C2: a one-instruction stream whose instruction is
virtualizable and touches eflags. -/
theorem C2_eflags_abort_witness :
    protectRun rollbackCtx [⟨0x1000, 5, 1⟩] rollbackState0 =
      Except.error ProtectError.UnsupportedInstruction :=
  (C2_eflags_abort rollbackCtx [⟨0x1000, 5, 1⟩] ⟨0x1000, 5, 1⟩
    rollbackState0 rollbackState0 (List.mem_singleton_self _) (by rfl)
    (by decide)).2.1

/-- C5 (code bug): in the rollback scenario the invalid-instruction
callback restores the original bytes and pulls the instruction's
relocation RVA back out of the to-remove vector, but the `TextSection`
fixup recorded for the patched jump at offset `R + 1` is still in the
fixup list, and applying the remaining fixups (as `FixFinishedPe` later
does) modifies the restored original bytes — contradicting the claim that
no fixup referring to `R` remains. -/
theorem C5_rollback_keeps_text_fixup :
    rollbackState2.newText = rollbackOrigText ∧
    rollbackState2.relocRvasToRemove = [] ∧
    (rollbackState2.fixups.filter (fun f =>
      decide (f.desc.offset_type = OffsetRelativeTo.TextSection) &&
        decide (f.offset = 1))).length = 1 ∧
    applyTextFixups 0x5000 0x6000 rollbackState2.fixups
      rollbackState2.newText ≠ rollbackOrigText := by
  decide

theorem padIfOdd_even (relocs : List Relocation) :
    (padIfOdd relocs).length % 2 = 0 := by
  unfold padIfOdd
  split
  · simp only [List.length_append, List.length_singleton]
    omega
  · omega

theorem addRelocationsLoop_even (t : Nat) :
    ∀ (offs : List Nat) (blockVA : Nat) (cur : List Relocation)
      (out : List (Nat × List Relocation)),
      (∀ b ∈ out, b.2.length % 2 = 0) →
      ∀ b ∈ addRelocationsLoop t offs blockVA cur out, b.2.length % 2 = 0 := by
  intro offs
  induction offs with
  | nil =>
    intro blockVA cur out hout b hb
    unfold addRelocationsLoop at hb
    split at hb
    · rcases List.mem_append.mp hb with h | h
      · exact hout b h
      · rcases List.mem_singleton.mp h with rfl
        exact padIfOdd_even cur
    · exact hout b hb
  | cons o rest ih =>
    intro blockVA cur out hout b hb
    unfold addRelocationsLoop at hb
    simp only [] at hb
    split at hb
    · refine ih _ _ _ ?_ b hb
      intro b2 hb2
      rcases List.mem_append.mp hb2 with h | h
      · exact hout b2 h
      · rcases List.mem_singleton.mp h with rfl
        exact padIfOdd_even cur
    · exact ih _ _ _ hout b hb

/-- C4 (amended): offsets `[0x100, 0x500, 0x1010]` with 4096-byte paging
produce exactly two blocks — one at virtual address 0 whose entries are
`{type 3, 0x100}` and `{type 3, 0x500}` with no padding entry (the count
is already even), and one at virtual address 0x1000 with entry
`{type 3, 0x10}` plus one type-0 padding entry; in general every flushed
block has an even entry count, and the flush appends exactly one type-0
(`IMAGE_REL_BASED_ABSOLUTE`) padding entry when the entry count is odd
and none when it is even. -/
theorem C4_relocation_blocks :
    addRelocations 3 [0x100, 0x500, 0x1010] =
      [(0, [⟨3, 0x100⟩, ⟨3, 0x500⟩]), (0x1000, [⟨3, 0x10⟩, ⟨0, 0⟩])] ∧
    (∀ (t : Nat) (offsets : List Nat) (b : Nat × List Relocation),
      b ∈ addRelocations t offsets → b.2.length % 2 = 0) ∧
    (∀ relocs : List Relocation, relocs.length % 2 = 1 →
      padIfOdd relocs = relocs ++ [⟨0, 0⟩]) ∧
    (∀ relocs : List Relocation, relocs.length % 2 = 0 →
      padIfOdd relocs = relocs) := by
  refine ⟨by decide, ?_, ?_, ?_⟩
  · intro t offsets b hb
    match offsets with
    | [] => simp [addRelocations] at hb
    | o :: rest =>
      unfold addRelocations at hb
      exact addRelocationsLoop_even t (o :: rest) (alignDown o 4096) [] []
        (by intro b2 hb2; simp at hb2) b hb
  · intro relocs h
    unfold padIfOdd
    rw [if_pos (by omega)]
  · intro relocs h
    unfold padIfOdd
    rw [if_neg (by omega)]

/-- Witness for C4's general parts at concrete inputs. -/
theorem C4_relocation_blocks_witness :
    addRelocations 3 [0x2004] = [(0x2000, [⟨3, 4⟩, ⟨0, 0⟩])] ∧
    ((0x2000, [(⟨3, 4⟩ : Relocation), ⟨0, 0⟩]) :
      Nat × List Relocation).2.length % 2 = 0 ∧
    padIfOdd [⟨3, 4⟩] = [⟨3, 4⟩] ++ [⟨0, 0⟩] ∧
    padIfOdd [] = [] :=
  ⟨by decide,
   C4_relocation_blocks.2.1 3 [0x2004] (0x2000, [⟨3, 4⟩, ⟨0, 0⟩]) (by decide),
   C4_relocation_blocks.2.2.1 [⟨3, 4⟩] (by decide),
   C4_relocation_blocks.2.2.2 [] (by decide)⟩

/-- C4 counterexample: on the claim's own input the first flushed block
holds exactly the two real entries and no type-0 padding entry, while the
claim asserts the first block carries one type-0 padding entry (three
entries in total). -/
theorem C4_first_block_no_pad_counterexample :
    ((addRelocations 3 [0x100, 0x500, 0x1010]).getD 0 (0, [])).2.length = 2 ∧
    (((addRelocations 3 [0x100, 0x500, 0x1010]).getD 0 (0, [])).2.filter
      (fun r => decide (r.type = 0))).length = 0 := by
  decide

/-- C6 (amended): the x86 prologue test returns false as soon as its
recursion counter exceeds 10 (in particular it always terminates and
never nests deeper than 12 calls, following at most 11 chained direct
`JMP imm` targets), as witnessed by the self-jump chain terminating with
false; the x64 prologue test has no recursion bound at all — on a direct
`JMP` targeting itself inside `.text`, every fuel budget is exhausted
without the recursion terminating. -/
theorem C6_prologue_recursion_bounds :
    (∀ (decode3 : Nat → Option (I32 × I32 × I32)) (inText : Nat → Bool)
      (rva c : Nat), c > 10 → isFunctionX86 decode3 inText rva c = false) ∧
    (isFunctionX86
      (fun r => some (⟨true, r, false, false, false⟩,
        ⟨false, 0, false, false, false⟩, ⟨false, 0, false, false, false⟩))
      (fun _ => true) 0x1000 0 = false) ∧
    (∀ fuel : Nat,
      isFunctionX64 (fun r => some ⟨2, true, r, false, 0, false⟩)
        (fun _ => true) 0x1000 fuel = none) := by
  refine ⟨?_, by decide, ?_⟩
  · intro decode3 inText rva c hc
    unfold isFunctionX86
    rw [show 11 - c = 0 by omega]
    rfl
  · intro fuel
    induction fuel with
    | zero => rfl
    | succ n ih => exact ih

/-- Witness for C6 at a concrete counter value above the bound. -/
theorem C6_prologue_recursion_bounds_witness :
    isFunctionX86 (fun _ => none) (fun _ => true) 0 11 = false :=
  C6_prologue_recursion_bounds.1 (fun _ => none) (fun _ => true) 0 11
    (by decide)

/-- C6 counterexample: the x64 prologue test, fed a direct `JMP` into
`.text` that targets its own RVA, has not terminated after 11 nested
calls — its recursion depth exceeds 10 (indeed any bound), refuting the
claim that both variants stop after 10 levels. -/
theorem C6_x64_unbounded_counterexample :
    isFunctionX64 (fun r => some ⟨2, true, r, false, 0, false⟩)
      (fun _ => true) 0x1000 11 = none := by
  decide

/-- C3 (amended): on the S1 input the jump-table parser enqueues exactly
the RVAs 0x1030 and 0x1040 in that order, stops at the zero entry, ends
the stream, and records the data range `[0x1020, 0x1028)` — the table RVA
plus 4 bytes per *enqueued* entry; the slot holding the terminating zero
is not included, because the loop counter is not advanced for the entry
that triggers the break. -/
theorem C3_jump_table_scenario :
    s1Result.1 = DisassemblyAction.NextDisassemblyPoint ∧
    s1Result.2.points = [0x1030, 0x1040] ∧
    s1Result.2.dataRanges = [(0x1020, 0x1028)] := by
  decide

/-- C3 counterexample: on the S1 input the recorded data range is not
`[0x1020, 0x102C)` as the claim states (it is `[0x1020, 0x1028)`), even
though the enqueued RVAs are exactly the claimed ones. -/
theorem C3_jump_table_range_counterexample :
    s1Result.2.points = [0x1030, 0x1040] ∧
    s1Result.2.dataRanges ≠ [(0x1020, 0x102C)] := by
  decide

theorem mem_cache_addDisassemblyPoint (s : DisasmState) (rva : Nat) :
    rva ∈ (addDisassemblyPoint s rva).cache := by
  unfold addDisassemblyPoint
  split
  · assumption
  · simp

/-- C8 (amended): for every decoded `MOV` whose first operand is a
*memory* operand and whose second is an immediate, if the
immediate-derived RVA lands inside some section, lies in `.text`, and
passes the function-prologue test, the engine enqueues the target RVA
(dedup-aware) and disassembly continues with the next instruction. (The
claim said `MOV reg_or_mem, imm`; `IsVTableOrFunction` requires the first
operand to be memory, so a register destination never enqueues — see the
counterexample.) -/
theorem C8_mov_mem_imm_enqueue (cfg : EngineCfg) (s : DisasmState)
    (ins : Insn32) (op1 op2 : Operand)
    (hops : ins.ops = [op1, op2])
    (hid : ins.id = InsnId.mov)
    (hret : ins.isRet = false) (hcall : ins.isCall = false)
    (hjump : ins.isJump = false) (hint2 : ins.isInt = false)
    (hmem : op1.type = OpType.mem) (himm : op2.type = OpType.imm)
    (hsec : (fromRva cfg.sections
      (getOperandRvaX86 cfg.imageBase op2.imm)).isSome = true)
    (htext : inSection cfg.text
      (getOperandRvaX86 cfg.imageBase op2.imm) = true)
    (hfun : isFunctionX86 cfg.decode3 (fun r => inSection cfg.text r)
      (getOperandRvaX86 cfg.imageBase op2.imm) 0 = true) :
    parseInstruction cfg s ins =
      (DisassemblyAction.NextInstruction,
        addDisassemblyPoint s (getOperandRvaX86 cfg.imageBase op2.imm)) ∧
    getOperandRvaX86 cfg.imageBase op2.imm ∈
      (parseInstruction cfg s ins).2.cache := by
  have hjt : isJumpTable cfg ins = false := by
    unfold isJumpTable
    rw [hops]
  have hvt : isVTableOrFunction cfg op1 op2 = true := by
    unfold isVTableOrFunction
    rw [hmem, himm, hsec]
    simp
  have hmain : parseInstruction cfg s ins =
      (DisassemblyAction.NextInstruction,
        addDisassemblyPoint s (getOperandRvaX86 cfg.imageBase op2.imm)) := by
    unfold parseInstruction
    rw [hret, hcall, hjump, hint2, hid, hops]
    simp only [Bool.false_eq_true, if_false, Bool.or_self, hjt, hvt,
      htext, hfun, Bool.and_self, if_true, ite_true, ite_false]
  refine ⟨hmain, ?_⟩
  rw [hmain]
  exact mem_cache_addDisassemblyPoint s _

/-- C8 counterexample: a `MOV reg, imm` whose immediate-derived RVA
0x1005 lies in `.text` and passes the prologue test is *not* enqueued —
the engine leaves the state unchanged and just continues — because
`IsVTableOrFunction` demands a memory first operand. This refutes the
claim for the `reg` half of `reg_or_mem`. -/
theorem C8_mov_reg_imm_counterexample :
    isFunctionX86 c8Cfg.decode3 (fun r => inSection c8Cfg.text r) 0x1005 0 =
      true ∧
    inSection c8Cfg.text (getOperandRvaX86 c8Cfg.imageBase 0x401005) = true ∧
    parseInstruction c8Cfg ⟨[], [], []⟩ c8RegIns =
      (DisassemblyAction.NextInstruction, ⟨[], [], []⟩) := by
  decide

/-- Witness for C8: the memory-destination variant at the same target. -/
theorem C8_mov_mem_imm_enqueue_witness :
    parseInstruction c8Cfg ⟨[], [], []⟩ c8MemIns =
      (DisassemblyAction.NextInstruction,
        addDisassemblyPoint ⟨[], [], []⟩
          (getOperandRvaX86 c8Cfg.imageBase 0x401005)) ∧
    getOperandRvaX86 c8Cfg.imageBase 0x401005 ∈
      (parseInstruction c8Cfg ⟨[], [], []⟩ c8MemIns).2.cache :=
  C8_mov_mem_imm_enqueue c8Cfg ⟨[], [], []⟩ c8MemIns
    ⟨OpType.mem, 0, 4, 0x2000⟩ ⟨OpType.imm, 0x401005, 0, 0⟩
    rfl rfl rfl rfl rfl rfl rfl rfl (by decide) (by decide) (by decide)

/-- C10: if the input PE has no section named `.rdata`, the entry-point
scan `ParseRDataSection` throws (`.rdata was not found`) instead of
skipping the optional scan: the model returns the error and no state. -/
theorem C10_rdata_missing_error (sections : List NamedSection)
    (imageBase : Nat) (mem32 : Nat → Nat) (rvaToFile : Nat → Nat)
    (text : Nat × Nat) (decode3 : Nat → Option (I32 × I32 × I32))
    (s : DisasmState)
    (hnone : ∀ sec ∈ sections, sec.name ≠ ".rdata") :
    parseRDataSection sections imageBase mem32 rvaToFile text decode3 s =
      Except.error DisasmError.rdataNotFound := by
  unfold parseRDataSection
  rw [List.find?_eq_none.mpr (fun sec hsec => by simpa using hnone sec hsec)]

/-- Witness for C10: a PE whose only section is `.text`. -/
theorem C10_rdata_missing_error_witness :
    parseRDataSection [⟨".text", 0x1000, 0x400⟩] 0x400000 (fun _ => 0)
      (fun _ => 0) (0x1000, 0x1000) (fun _ => none) ⟨[], [], []⟩ =
      Except.error DisasmError.rdataNotFound :=
  C10_rdata_missing_error [⟨".text", 0x1000, 0x400⟩] 0x400000 (fun _ => 0)
    (fun _ => 0) (0x1000, 0x1000) (fun _ => none) ⟨[], [], []⟩ (by decide)

theorem getByte_append_left {a : List Nat} (b : List Nat) {k : Nat}
    (h : k < a.length) : getByte (a ++ b) k = getByte a k := by
  simp [getByte, List.getD_eq_getElem?_getD, List.getElem?_append_left h]

theorem getByte_append_add (a b : List Nat) (k : Nat) :
    getByte (a ++ b) (a.length + k) = getByte b k := by
  simp [getByte, List.getD_eq_getElem?_getD, List.getElem?_append_right]

theorem le32Read_append_left {a : List Nat} (b : List Nat) {k : Nat}
    (h : k + 4 ≤ a.length) : le32Read (a ++ b) k = le32Read a k := by
  unfold le32Read
  rw [getByte_append_left b (by omega), getByte_append_left b (by omega),
    getByte_append_left b (by omega), getByte_append_left b (by omega)]

theorem le32Read_append_add (a b : List Nat) (k : Nat) :
    le32Read (a ++ b) (a.length + k) = le32Read b k := by
  unfold le32Read
  have e1 : a.length + k + 1 = a.length + (k + 1) := by omega
  have e2 : a.length + k + 2 = a.length + (k + 2) := by omega
  have e3 : a.length + k + 3 = a.length + (k + 3) := by omega
  rw [e1, e2, e3, getByte_append_add, getByte_append_add, getByte_append_add,
    getByte_append_add]

theorem le32Read_le32Bytes (v : Nat) : le32Read (le32Bytes v) 0 = v % M32 := by
  simp [le32Read, le32Bytes, getByte, M32]
  omega

theorem flatten_le32Bytes_length :
    ∀ cbs : List Nat, ((cbs.map le32Bytes).flatten).length = 4 * cbs.length := by
  intro cbs
  induction cbs with
  | nil => rfl
  | cons c t ih =>
    simp only [List.map_cons, List.flatten_cons, List.length_append, ih]
    simp [le32Bytes]
    omega

theorem le32Read_flatten_le32Bytes :
    ∀ (cbs : List Nat) (i : Nat), i < cbs.length →
      le32Read ((cbs.map le32Bytes).flatten) (4 * i) =
        getByte cbs i % M32 := by
  intro cbs
  induction cbs with
  | nil => intro i h; simp at h
  | cons c t ih =>
    intro i hi
    match i with
    | 0 =>
      simp only [List.map_cons, List.flatten_cons, Nat.mul_zero]
      rw [le32Read_append_left _ (by simp [le32Bytes])]
      exact le32Read_le32Bytes c
    | j + 1 =>
      simp only [List.map_cons, List.flatten_cons]
      have e : 4 * (j + 1) = (le32Bytes c).length + 4 * j := by
        simp [le32Bytes]
        omega
      rw [e, le32Read_append_add]
      have : getByte (c :: t) (j + 1) = getByte t j := by
        simp [getByte]
      rw [this]
      exact ih j (by simpa using Nat.lt_of_succ_lt_succ hi)

/-- C7 (amended): in the pre-existing-TLS-directory mode, the injector
appends the interpreter's `TlsCallback` address stored as
`image_base_default + function_offset` followed by five zero padding
slots (conjunct 1: reading the i-th 4-byte slot of the appended table
gives the i-th entry of `existing ++ [base + offset, 0, 0, 0, 0, 0]`),
records a relocation offset for each non-zero slot — the surviving
entries of the copied list plus the new callback slot (conjunct 2) —
pushes exactly the `VirtualizedCodeSection`-origin
`AddVmLoaderSectionVirtualAddress` fixup for the new slot and the
`Beginning`-origin `AddVirtualizedCodeSectionVirtualAddress` fixup for the
`AddressOfCallBacks` field at directory offset 12 (conjunct 3), the
former turning the stored slot into
`image_base_default + VmLoaderSectionVA + function_offset` — not into
`VmLoaderSectionVA + function_offset` as claimed (conjunct 4) — and
overwrites `AddressOfCallBacks` with `image_base_default +` the new
table's section offset — not with the bare section offset as claimed
(conjunct 5). -/
theorem C7_tls_existing_mode (defaultBase funcOff : Nat)
    (existing vc : List Nat) (falign tlsDirFileOffset : Nat)
    (hnz : defaultBase + funcOff ≠ 0) :
    (∀ i, i < existing.length + 6 →
      le32Read (addTlsCallbacksExisting defaultBase funcOff existing vc falign
          tlsDirFileOffset).vcData
        ((addTlsCallbacksExisting defaultBase funcOff existing vc falign
          tlsDirFileOffset).listOffset + 4 * i) =
      getByte (existing ++ (defaultBase + funcOff) :: [0, 0, 0, 0, 0]) i %
        M32) ∧
    (addTlsCallbacksExisting defaultBase funcOff existing vc falign
        tlsDirFileOffset).relocOffsets =
      ((List.range existing.length).filterMap
        (fun i => if getByte existing i ≠ 0 then
          some ((addTlsCallbacksExisting defaultBase funcOff existing vc falign
            tlsDirFileOffset).listOffset + i * 4) else none)) ++
      [(addTlsCallbacksExisting defaultBase funcOff existing vc falign
          tlsDirFileOffset).listOffset + existing.length * 4] ∧
    (addTlsCallbacksExisting defaultBase funcOff existing vc falign
        tlsDirFileOffset).fixups =
      [⟨(addTlsCallbacksExisting defaultBase funcOff existing vc falign
          tlsDirFileOffset).listOffset + existing.length * 4,
         ⟨OffsetRelativeTo.VirtualizedCodeSection, 4,
           FixupOperation.AddVmLoaderSectionVirtualAddress⟩⟩,
       ⟨tlsDirFileOffset + 12,
         ⟨OffsetRelativeTo.Beginning, 4,
           FixupOperation.AddVirtualizedCodeSectionVirtualAddress⟩⟩] ∧
    (∀ vmVA vcVA : Nat,
      applyFixup32 vmVA vcVA ((defaultBase + funcOff) % M32)
        FixupOperation.AddVmLoaderSectionVirtualAddress =
      (defaultBase + funcOff + vmVA) % M32) ∧
    (addTlsCallbacksExisting defaultBase funcOff existing vc falign
        tlsDirFileOffset).addressOfCallBacks =
      defaultBase +
        (addTlsCallbacksExisting defaultBase funcOff existing vc falign
          tlsDirFileOffset).listOffset := by
  refine ⟨?_, ?_, rfl, ?_, rfl⟩
  · intro i hi
    show le32Read
      ((vc ++ (((existing ++ (defaultBase + funcOff) :: [0, 0, 0, 0, 0]).map
        le32Bytes).flatten)) ++
        List.replicate (padLen (vc ++ (((existing ++ (defaultBase + funcOff)
          :: [0, 0, 0, 0, 0]).map le32Bytes).flatten)).length falign) 0)
      (vc.length + 4 * i) =
      getByte (existing ++ (defaultBase + funcOff) :: [0, 0, 0, 0, 0]) i % M32
    have hclen : (existing ++ (defaultBase + funcOff) ::
        [0, 0, 0, 0, 0]).length = existing.length + 6 := by
      simp
    have hjlen : ((((existing ++ (defaultBase + funcOff) ::
        [0, 0, 0, 0, 0]).map le32Bytes)).flatten).length =
        4 * (existing.length + 6) := by
      rw [flatten_le32Bytes_length, hclen]
    rw [le32Read_append_left _ (by rw [List.length_append, hjlen]; omega)]
    rw [le32Read_append_add]
    exact le32Read_flatten_le32Bytes _ i (by omega)
  · show (List.range (existing ++ (defaultBase + funcOff) ::
        [0, 0, 0, 0, 0]).length).filterMap
      (fun i => if getByte (existing ++ (defaultBase + funcOff) ::
          [0, 0, 0, 0, 0]) i ≠ 0 then some (vc.length + i * 4) else none) = _
    have hclen : (existing ++ (defaultBase + funcOff) ::
        [0, 0, 0, 0, 0]).length = existing.length + 6 := by
      simp
    rw [hclen, List.range_add, List.filterMap_append]
    have hpart1 : (List.range existing.length).filterMap
        (fun i => if getByte (existing ++ (defaultBase + funcOff) ::
            [0, 0, 0, 0, 0]) i ≠ 0 then some (vc.length + i * 4) else none) =
        (List.range existing.length).filterMap
        (fun i => if getByte existing i ≠ 0 then some (vc.length + i * 4)
          else none) := by
      apply List.filterMap_congr
      intro i hi
      rw [getByte_append_left _ (List.mem_range.mp hi)]
    have hslot : ∀ k : Nat, getByte (existing ++ (defaultBase + funcOff) ::
        [0, 0, 0, 0, 0]) (existing.length + k) =
        getByte ((defaultBase + funcOff) :: [0, 0, 0, 0, 0]) k :=
      fun k => getByte_append_add existing _ k
    have hpart2 : ((List.range 6).map (existing.length + ·)).filterMap
        (fun i => if getByte (existing ++ (defaultBase + funcOff) ::
            [0, 0, 0, 0, 0]) i ≠ 0 then some (vc.length + i * 4) else none) =
        [vc.length + existing.length * 4] := by
      show (([existing.length + 0, existing.length + 1, existing.length + 2,
        existing.length + 3, existing.length + 4,
        existing.length + 5]).filterMap _) = _
      simp only [List.filterMap_cons, List.filterMap_nil, hslot]
      have h0 : getByte ((defaultBase + funcOff) :: [0, 0, 0, 0, 0]) 0 =
          defaultBase + funcOff := rfl
      have hz : ∀ k, getByte ((defaultBase + funcOff) :: [0, 0, 0, 0, 0])
          (k + 1) = getByte ([0, 0, 0, 0, 0] : List Nat) k := by
        intro k
        simp [getByte]
      simp only [h0, hz]
      simp [getByte, hnz]
    rw [hpart1, hpart2]
    rfl
  · intro vmVA vcVA
    show ((defaultBase + funcOff) % M32 + vmVA) % M32 =
      (defaultBase + funcOff + vmVA) % M32
    unfold M32
    omega

/-- Witness for C7 at a concrete pre-existing callback list. -/
theorem C7_tls_existing_mode_witness :
    le32Read (addTlsCallbacksExisting 0x400000 0x123 [0x401000] [] 4
        0x800).vcData
      ((addTlsCallbacksExisting 0x400000 0x123 [0x401000] [] 4
        0x800).listOffset + 4 * 1) =
      getByte ([0x401000] ++ (0x400000 + 0x123) :: [0, 0, 0, 0, 0]) 1 %
        M32 ∧
    applyFixup32 0x7000 0x9000 ((0x400000 + 0x123) % M32)
      FixupOperation.AddVmLoaderSectionVirtualAddress =
      (0x400000 + 0x123 + 0x7000) % M32 :=
  ⟨(C7_tls_existing_mode 0x400000 0x123 [0x401000] [] 4 0x800
      (by decide)).1 1 (by decide),
   (C7_tls_existing_mode 0x400000 0x123 [0x401000] [] 4 0x800
      (by decide)).2.2.2.1 0x7000 0x9000⟩

/-- C7 counterexample: with the conventional non-zero default base, the
value written over `AddressOfCallBacks` is `default_base + offset`, not
the bare table section offset the claim states; and applying the recorded
`AddVmLoaderSectionVirtualAddress` fixup to the stored slot value
`default_base + function_offset` yields
`default_base + function_offset + VmLoaderVA`, not
`VmLoaderVA + function_offset` as claimed. -/
theorem C7_addressofcallbacks_counterexample :
    (addTlsCallbacksExisting 0x400000 0x123 [] [] 4 0x800).addressOfCallBacks ≠
      (addTlsCallbacksExisting 0x400000 0x123 [] [] 4 0x800).listOffset ∧
    applyFixup32 0x7000 0x9000 (0x400000 + 0x123)
      FixupOperation.AddVmLoaderSectionVirtualAddress ≠ 0x7000 + 0x123 := by
  decide
